import Mathlib

/-!
# Request signing and validation layer of the SimpleDB client

A shallow embedding of `sdb/conn/conn.go` (the connection that authenticates
and transmits a request) and of the `PutAttributes` operation that
`exp/sdb/put_test.go` exercises.

Go strings and byte slices are byte sequences, Go maps are reference values
that live in a heap of maps, and the collaborators injected into a connection
(signer, transport, clock) are arbitrary functions.
-/

set_option linter.dupNamespace false

/-! ## Go strings -/

/-- A Go string or byte slice: a finite sequence of bytes, not necessarily
valid UTF-8. -/
abbrev Bytes := List UInt8

/-- The bytes of a Go string literal: the UTF-8 encoding of its text. -/
def str (s : String) : Bytes := s.data.flatMap String.utf8EncodeChar

/-- Substring test on Go strings, as `strings.Contains` and the `HasSubstr`
matcher of the tests compute it. -/
def HasSubstr (needle hay : Bytes) : Prop := needle <:+: hay

instance (needle hay : Bytes) : Decidable (HasSubstr needle hay) := by
  unfold HasSubstr; infer_instance

namespace fmt

/-- Decimal digits of `n`, most significant first, pushed in front of `ds`;
`fuel` bounds the number of digits produced. -/
def digitsCore : Nat → Nat → Bytes → Bytes
  | 0, _, ds => ds
  | fuel + 1, n, ds =>
    let d : UInt8 := UInt8.ofNat (48 + n % 10)
    if n / 10 = 0 then d :: ds else digitsCore fuel (n / 10) (d :: ds)

/-- Decimal rendering of a natural number (`strconv.Itoa` on a non-negative
int): `0` is `"0"`, no leading zeros otherwise. -/
def itoa (n : Nat) : Bytes := digitsCore (n + 1) n []

/-- The verb `%d` applied to an int: a minus sign for a negative number, then
the decimal digits of its magnitude. -/
def formatInt (i : Int) : Bytes :=
  if i < 0 then str "-" ++ itoa i.natAbs else itoa i.natAbs

/-- The number that a string of decimal digits denotes, continuing from `acc`. -/
def digitsValue (acc : Nat) (ds : Bytes) : Nat :=
  ds.foldl (fun a b => 10 * a + (b.toNat - 48)) acc

end fmt

/-! ## The standard library's time values -/

namespace time

/-- A `time.Time`: an instant (seconds since the Unix epoch and the nanoseconds
within that second) together with the offset of its location, in seconds east
of UTC. -/
structure Time where
  sec : Int
  nsec : Nat
  offset : Int
deriving DecidableEq, Repr

/-- `Time.UTC`: the same instant with the location set to UTC. -/
def Time.UTC (t : Time) : Time := { t with offset := 0 }

/-- Proleptic Gregorian civil date (year, month, day) of a day count relative
to 1970-01-01. -/
def civil (days : Int) : Int × Int × Int :=
  let z := days + 719468
  let era := z / 146097
  let doe := z - era * 146097
  let yoe := (doe - doe / 1460 + doe / 36524 - doe / 146096) / 365
  let doy := doe - (365 * yoe + yoe / 4 - yoe / 100)
  let mp := (5 * doy + 2) / 153
  let d := doy - (153 * mp + 2) / 5 + 1
  let m := if mp < 10 then mp + 3 else mp - 9
  let y := yoe + era * 400 + (if m ≤ 2 then 1 else 0)
  (y, m, d)

/-- The helper `appendInt` of package time: `x` in decimal, zero-padded on the
left to at least `width` digits, after a minus sign when `x` is negative. -/
def appendInt (x : Int) (width : Nat) : Bytes :=
  let digits := fmt.itoa x.natAbs
  (if x < 0 then str "-" else []) ++ List.replicate (width - digits.length) 48 ++ digits

/-- The ASCII digit for the last decimal digit of `n`. -/
def digit (n : Nat) : UInt8 := UInt8.ofNat (48 + n % 10)

/-- Two decimal digits of `n`: tens, units. -/
def twoDigits (n : Nat) : Bytes := [digit (n / 10), digit n]

/-- Four decimal digits of `n`: thousands, hundreds, tens, units. -/
def fourDigits (n : Nat) : Bytes :=
  [digit (n / 1000), digit (n / 100), digit (n / 10), digit n]

/-- The chunks of a layout, replaced one after the other by the fields of a
time: `2006` by the year, `01` by the month, `02` by the day, `15` by the hour,
`04` by the minute and `05` by the second, each number zero-padded to the width
of its chunk; every other byte is literal text and is copied. The other
elements of the layout language of package time (names of months and days, the
12-hour clock, time zones, fractions of a second) do not occur in the layout
the connection uses and are not modelled; in particular a `Z` not followed by
`07` is literal text. -/
def formatChunks (year month day hour minute second : Int) : Bytes → Bytes
  | 50 :: 48 :: 48 :: 54 :: rest =>
    appendInt year 4 ++ formatChunks year month day hour minute second rest
  | 48 :: 49 :: rest => appendInt month 2 ++ formatChunks year month day hour minute second rest
  | 48 :: 50 :: rest => appendInt day 2 ++ formatChunks year month day hour minute second rest
  | 49 :: 53 :: rest => appendInt hour 2 ++ formatChunks year month day hour minute second rest
  | 48 :: 52 :: rest => appendInt minute 2 ++ formatChunks year month day hour minute second rest
  | 48 :: 53 :: rest => appendInt second 2 ++ formatChunks year month day hour minute second rest
  | b :: rest => b :: formatChunks year month day hour minute second rest
  | [] => []

/-- `Time.Format`: the layout with its chunks replaced by the fields of the
instant in the time's own location; a fraction of a second is not rendered. -/
def Time.Format (t : Time) (layout : Bytes) : Bytes :=
  let abs := t.sec + t.offset
  let ymd := civil (abs / 86400)
  let s := abs % 86400
  formatChunks ymd.1 ymd.2.1 ymd.2.2 (s / 3600) (s % 3600 / 60) (s % 60) layout

/-- The interface `Clock` of `aws/time`: its method `Now` yields the current
time; a clock is modelled by the reading it yields at the call. -/
structure Clock where
  Now : Time

end time

/-! ## Package aws -/

namespace aws

/-- The credentials `aws.AccessKey`. -/
structure AccessKey where
  Id : Bytes
  Secret : Bytes

end aws

/-! ## Package conn -/

namespace conn

/-- The constant `iso8601Format`. -/
def iso8601Format : Bytes := str "2006-01-02T15:04:05Z"

/-- The type `Request`: a Go map from parameter names to values. -/
abbrev Request := AList (fun _ : Bytes => Bytes)

/-- The statement `req[key] = val` on the contents of a map. -/
def Request.assign (r : Request) (key val : Bytes) : Request := r.insert key val

/-- The heap of maps. A Go map value is a reference: the maps that exist are
the cells of the heap and a reference is the index of a cell. -/
abbrev Heap := List Request

/-- The contents of the map at address `a`. -/
def Heap.read (h : Heap) (a : Nat) : Request := h.getD a ∅

/-- Replace the contents of the map at address `a`. -/
def Heap.write (h : Heap) (a : Nat) (r : Request) : Heap := h.set a r

/-- A fresh empty map (`Request\x7b\x7d`): the heap grows by one cell, whose
address is returned. -/
def Heap.alloc (h : Heap) : Heap × Nat := (h ++ [∅], h.length)

/-- The statement `m[key] = val` on the map at address `m`. -/
def Heap.assign (h : Heap) (m : Nat) (key val : Bytes) : Heap :=
  h.write m ((h.read m).assign key val)

/-- The response of the transport: status code and body (`nil` or a slice). -/
structure HttpResponse where
  StatusCode : Int
  Body : Option Bytes
deriving DecidableEq

/-- The interface `Signer`. `SignRequest(req) error` receives the map by
reference and may write to it: from the contents of the map at the call it
yields the contents on return and the error (`none` for nil, otherwise the
text of `Error()`). -/
structure Signer where
  SignRequest : Request → Request × Option Bytes

deriving instance DecidableEq for Except

/-- The interface `HttpConn`. `SendRequest(req)` receives the map by reference:
from its contents at the call it yields the contents on return and either a
transport error or the response. -/
structure HttpConn where
  SendRequest : Request → Request × Except Bytes HttpResponse

/-- What a call of `conn.SendRequest` leaves behind: the heap of maps, the two
results `resp` and `err`, and the parameter sets that were handed to the signer
and to the transport, in order. -/
structure Outcome where
  heap : Heap
  resp : Option Bytes
  err : Option Bytes
  signed : List Request
  sent : List Request

/-- The interface `Conn`: `SendRequest(req)` yields the response bytes and the
error. -/
structure Conn where
  SendRequest : Request → Option Bytes × Option Bytes

/-- The struct `conn`. -/
structure conn where
  key : aws.AccessKey
  httpConn : HttpConn
  signer : Signer
  clock : time.Clock

/-- The loop `for key, val := range originalReq \x7b req[key] = val \x7d`, over
the entries of the original map. -/
def copyInto (h : Heap) (req : Nat) (entries : List (Sigma fun _ : Bytes => Bytes)) : Heap :=
  entries.foldl (fun h kv => h.assign req kv.1 kv.2) h

/-- The method `conn.SendRequest`. The caller's map is the cell `req` of the
heap `h`. -/
def conn.SendRequest (c : conn) (h : Heap) (req : Fin h.length) : Outcome :=
  -- Make a copy of the request that we can modify below.
  let originalReq := req.val
  let (h, req) := h.alloc
  let h := copyInto h req (h.read originalReq).entries
  -- Set authentication info.
  let h := h.assign req (str "AWSAccessKeyId") c.key.Id
  let h := h.assign req (str "Timestamp") (c.clock.Now.UTC.Format iso8601Format)
  let h := h.assign req (str "SignatureVersion") (str "2")
  let h := h.assign req (str "SignatureMethod") (str "HmacSHA1")
  -- Sign the request.
  let toSign := h.read req
  let (afterSign, signErr) := c.signer.SignRequest toSign
  let h := h.write req afterSign
  match signErr with
  | some e =>
    { heap := h, resp := none, err := some (str "SignRequest: " ++ e),
      signed := [toSign], sent := [] }
  | none =>
    -- Send the request.
    let toSend := h.read req
    let (afterSend, r) := c.httpConn.SendRequest toSend
    let h := h.write req afterSend
    match r with
    | .error e =>
      { heap := h, resp := none, err := some (str "SendRequest: " ++ e),
        signed := [toSign], sent := [toSend] }
    | .ok httpResp =>
      -- Did the server return an error?
      if httpResp.StatusCode ≠ 200 then
        { heap := h, resp := none,
          err := some (str "Error from server (" ++ fmt.formatInt httpResp.StatusCode ++
            str "): " ++ httpResp.Body.getD []),
          signed := [toSign], sent := [toSend] }
      else
        { heap := h, resp := httpResp.Body, err := none,
          signed := [toSign], sent := [toSend] }

/-- The parameter set that a call hands to the signer: the first entry of the
call's record of signer invocations. -/
def conn.handedToSigner (c : conn) (h : Heap) (req : Fin h.length) : Request :=
  (c.SendRequest h req).signed.headD ∅

/-- The contents of a map after the loop that copies `entries` into it. -/
def copied (entries : List (Sigma fun _ : Bytes => Bytes)) (m : Request) : Request :=
  entries.foldl (fun m kv => m.assign kv.1 kv.2) m

/-- The contents of the copy once the authentication info has been set on it,
as a function of the contents `orig` of the caller's map. -/
def conn.authParams (c : conn) (orig : Request) : Request :=
  ((((copied orig.entries ∅).assign (str "AWSAccessKeyId") c.key.Id).assign
    (str "Timestamp") (c.clock.Now.UTC.Format iso8601Format)).assign
    (str "SignatureVersion") (str "2")).assign (str "SignatureMethod") (str "HmacSHA1")

/-- The four parameter names that `conn.SendRequest` sets itself. -/
def reservedKeys : List Bytes :=
  [str "AWSAccessKeyId", str "Timestamp", str "SignatureVersion", str "SignatureMethod"]

/-- A signer for the examples: it adds a `Signature` parameter and fails when
the request has a parameter `fail`. -/
def exampleSigner : Signer :=
  ⟨fun r => (r.assign (str "Signature") (str "c2ln"),
    if (r.lookup (str "fail")).isSome then some (str "no key") else none)⟩

/-- A transport for the examples: it fails when the request has a parameter
`down`, answers 200 when the request has a parameter `Action`, and 403
otherwise. -/
def exampleHttpConn : HttpConn :=
  ⟨fun r => (r,
    if (r.lookup (str "down")).isSome then .error (str "no route")
    else if (r.lookup (str "Action")).isSome then .ok ⟨200, some (str "<ok/>")⟩
    else .ok ⟨403, some (str "denied")⟩)⟩

/-- A connection for the examples. -/
def exampleConn : conn :=
  ⟨⟨str "AKID", str "secret"⟩, exampleHttpConn, exampleSigner, ⟨⟨1351700038, 7, 3600⟩⟩⟩

/-- A connection whose clock reads the first second of the year 10000. -/
def lateConn : conn :=
  ⟨⟨str "AKID", str "secret"⟩, exampleHttpConn, exampleSigner, ⟨⟨253402300800, 0, 0⟩⟩⟩

/-- A heap for the examples, of four maps: a request that is served, one that
is refused, one that cannot be signed and one that cannot be sent. -/
def exampleHeap : Heap :=
  [(∅ : Request).assign (str "Action") (str "ListDomains"),
   (∅ : Request).assign (str "Timestamp") (str "yesterday"),
   (∅ : Request).assign (str "fail") (str "1"),
   (∅ : Request).assign (str "down") (str "1")]

end conn

/-! ## Package sdb: PutAttributes -/

namespace sdb

/-- The type `ItemName`, a string. -/
abbrev ItemName := Bytes

/-- The struct `PutUpdate` of the tests: fields `Name`, `Value` and `Replace`,
in this order. -/
structure PutUpdate where
  Name : Bytes
  Value : Bytes
  Replace : Bool
deriving DecidableEq

/-- The struct `Precondition` of the tests: `Exists` and `Value` are pointers,
nil when not set. -/
structure Precondition where
  Name : Bytes
  Exists : Option Bool
  Value : Option Bytes
deriving DecidableEq

/-- State of the UTF-8 decoder between two bytes: the number of continuation
bytes still expected, the range in which the next byte must lie, the bits of
the code point read so far and the code points completed. -/
structure Utf8State where
  need : Nat
  lo : Nat
  hi : Nat
  acc : Nat
  out : List Nat

/-- One byte of UTF-8 decoding, by the ranges that `unicode/utf8` accepts: no
overlong form, no surrogate, nothing above U+10FFFF. -/
def utf8Step (st : Option Utf8State) (b : UInt8) : Option Utf8State :=
  match st with
  | none => none
  | some s =>
    let x := b.toNat
    if s.need = 0 then
      if x < 0x80 then some { s with out := s.out ++ [x] }
      else if 0xC2 ≤ x ∧ x ≤ 0xDF then some ⟨1, 0x80, 0xBF, x - 0xC0, s.out⟩
      else if x = 0xE0 then some ⟨2, 0xA0, 0xBF, 0, s.out⟩
      else if x = 0xED then some ⟨2, 0x80, 0x9F, 0xD, s.out⟩
      else if 0xE1 ≤ x ∧ x ≤ 0xEF then some ⟨2, 0x80, 0xBF, x - 0xE0, s.out⟩
      else if x = 0xF0 then some ⟨3, 0x90, 0xBF, 0, s.out⟩
      else if 0xF1 ≤ x ∧ x ≤ 0xF3 then some ⟨3, 0x80, 0xBF, x - 0xF0, s.out⟩
      else if x = 0xF4 then some ⟨3, 0x80, 0x8F, 4, s.out⟩
      else none
    else if s.lo ≤ x ∧ x ≤ s.hi then
      let acc := s.acc * 64 + (x - 0x80)
      if s.need = 1 then some ⟨0, 0x80, 0xBF, 0, s.out ++ [acc]⟩
      else some ⟨s.need - 1, 0x80, 0xBF, acc, s.out⟩
    else none

/-- The code points of a string, or `none` when the string is not valid
UTF-8. -/
def decodeRunes (s : Bytes) : Option (List Nat) :=
  match s.foldl utf8Step (some ⟨0, 0x80, 0xBF, 0, []⟩) with
  | some st => if st.need = 0 then some st.out else none
  | none => none

/-- The function `utf8.ValidString`. -/
def validUtf8 (s : Bytes) : Bool := (decodeRunes s).isSome

/-- Characters permitted in XML 1.0 character data. -/
def isXmlChar (c : Nat) : Bool :=
  c = 0x9 || c = 0xA || c = 0xD || (0x20 ≤ c && c ≤ 0xD7FF) ||
    (0xE000 ≤ c && c ≤ 0xFFFD) || (0x10000 ≤ c && c ≤ 0x10FFFF)

/-- Modelled from the spec: the rules of section 4.1 for one string (the
validation code of package sdb is not among the sources), in the order the spec
lists them: valid UTF-8, at most 1024 bytes, only characters of XML 1.0. The
result is the reason of the violation, `none` for a legal string. -/
def validateValue (s : Bytes) : Option Bytes :=
  match decodeRunes s with
  | none => some (str "invalid encoding")
  | some runes =>
    if s.length > 1024 then some (str "longer than 1024 bytes")
    else if runes.all isXmlChar then none
    else some (str "character not permitted in XML 1.0")

/-- Modelled from the spec: a name (item name, attribute name) is non-empty and
obeys the rules for a string. A comment in `sdb.go` gives attribute names and
values the restrictions of item names; the tests reject an empty item name
(`EmptyItemName`) and an empty attribute name (`OneAttributeNameEmpty`) and
accept an empty attribute value (`BasicParameters`), and so does the model:
only names must be non-empty. -/
def validateName (s : Bytes) : Option Bytes :=
  if s = [] then some (str "empty") else validateValue s

/-- Modelled from the spec: the error for an item name, `Invalid item name`
with the reason and the offending value verbatim. -/
def validateItemName (item : ItemName) : Option Bytes :=
  (validateName item).map fun reason =>
    str "Invalid item name (" ++ reason ++ str "): " ++ item

/-- Modelled from the spec: the number of updates of a call is between 1 and
256; the error for an empty list mentions `number of updates` and `0`, the
error for a list that is too long `number of updates` and `256`. -/
def validateUpdateCount (n : Nat) : Option Bytes :=
  if n = 0 then some (str "Invalid number of updates: 0")
  else if n > 256 then some (str "Invalid number of updates: more than 256")
  else none

/-- Modelled from the spec: the violations of one update, that of its name and
that of its value. Each names the field (`Invalid attribute name`, `Invalid
attribute value`) and reports the offending update through its name and value,
not through an index (the test `OneAttributeNameEmpty` finds the value of the
update in the error for its empty name). -/
def validateUpdate (u : PutUpdate) : List Bytes :=
  ((validateName u.Name).map fun reason =>
    str "Invalid attribute name (" ++ reason ++ str ") in update " ++ u.Name ++
      str "=" ++ u.Value).toList ++
  ((validateValue u.Value).map fun reason =>
    str "Invalid attribute value (" ++ reason ++ str ") in update " ++ u.Name ++
      str "=" ++ u.Value).toList

/-- Modelled from the spec: a precondition must set exactly one of `Exists` and
`Value`; an entry with no operand (`missing operand`) and an entry with two
(`has two operands`) are violations that name the attribute of the entry. -/
def operandViolation (p : Precondition) : Option Bytes :=
  match p.Exists, p.Value with
  | none, none => some (str "Invalid precondition (missing operand): " ++ p.Name)
  | some _, some _ => some (str "Invalid precondition (has two operands): " ++ p.Name)
  | some _, none => none
  | none, some _ => none

/-- Modelled from the spec: the violations of one precondition, that of its
name (`Invalid attribute name`), that of its operands and that of a value it
sets (`Invalid attribute value`), each with the offending string. -/
def validatePrecondition (p : Precondition) : List Bytes :=
  ((validateName p.Name).map fun reason =>
    str "Invalid attribute name (" ++ reason ++ str "): " ++ p.Name).toList ++
  (operandViolation p).toList ++
  (match p.Value with
    | some v =>
      ((validateValue v).map fun reason =>
        str "Invalid attribute value (" ++ reason ++ str "): " ++ v).toList
    | none => [])

/-- Modelled from the spec: the violations of a `PutAttributes` call, those of
its item name, of the number of its updates, of each update and of each
precondition. -/
def putViolations (item : ItemName) (updates : List PutUpdate)
    (preconditions : List Precondition) : List Bytes :=
  (validateItemName item).toList ++ (validateUpdateCount updates.length).toList ++
    updates.flatMap validateUpdate ++ preconditions.flatMap validatePrecondition

/-- One error for a list of violations: `none` when there is none, otherwise
their messages, separated by `; `. -/
def joinErrors : List Bytes → Option Bytes
  | [] => none
  | e :: es => some (es.foldl (fun acc x => acc ++ str "; " ++ x) e)

/-- Modelled from the spec: validation of a `PutAttributes` call. Section 8 of
the spec asks of every call with a fault of a given kind (an ill-encoded
string, a wrong number of updates, a precondition with no or two operands) an
error that names this fault, whatever else is wrong with the call, and the
spec fixes no order among the checks; the error of a call therefore reports
every violation of the call, and a call is valid when it has none. -/
def validatePut (item : ItemName) (updates : List PutUpdate)
    (preconditions : List Precondition) : Option Bytes :=
  joinErrors (putViolations item updates preconditions)

/-- The parameter name `<kind>.<index>.<field>`, the index in decimal. -/
def paramKey (kind : String) (index : Nat) (field : String) : Bytes :=
  str kind ++ str "." ++ fmt.itoa index ++ str "." ++ str field

/-- Modelled from the spec: the parameters of the update at (0-based) position
`i`: `Attribute.<i+1>.Name`, `Attribute.<i+1>.Value` and, only when `Replace`
is true, `Attribute.<i+1>.Replace` with the value `true`. -/
def updateParams (i : Nat) (u : PutUpdate) : List (Sigma fun _ : Bytes => Bytes) :=
  [⟨paramKey "Attribute" (i + 1) "Name", u.Name⟩,
   ⟨paramKey "Attribute" (i + 1) "Value", u.Value⟩] ++
  (if u.Replace then [⟨paramKey "Attribute" (i + 1) "Replace", str "true"⟩] else [])

/-- Modelled from the spec: the parameters of the precondition at (0-based)
position `i`: `Expected.<i+1>.Name` and either `Expected.<i+1>.Exists` or
`Expected.<i+1>.Value`. -/
def preconditionParams (i : Nat) (p : Precondition) : List (Sigma fun _ : Bytes => Bytes) :=
  [⟨paramKey "Expected" (i + 1) "Name", p.Name⟩] ++
  (match p.Exists with
    | some b => [⟨paramKey "Expected" (i + 1) "Exists", if b then str "true" else str "false"⟩]
    | none => []) ++
  (match p.Value with
    | some v => [⟨paramKey "Expected" (i + 1) "Value", v⟩]
    | none => [])

/-- Modelled from the spec: the parameters of a `PutAttributes` call, in the
order in which they are assigned: `DomainName`, `ItemName`, the updates, the
preconditions. -/
def putParams (domain : Bytes) (item : ItemName) (updates : List PutUpdate)
    (preconditions : List Precondition) : List (Sigma fun _ : Bytes => Bytes) :=
  [⟨str "DomainName", domain⟩, ⟨str "ItemName", item⟩] ++
  updates.enum.flatMap (fun iu => updateParams iu.1 iu.2) ++
  preconditions.enum.flatMap (fun ip => preconditionParams ip.1 ip.2)

/-- Modelled from the spec: the request of a call, a fresh map to which the
parameters are assigned one after the other. -/
def putRequest (domain : Bytes) (item : ItemName) (updates : List PutUpdate)
    (preconditions : List Precondition) : conn.Request :=
  conn.copied (putParams domain item updates preconditions) ∅

/-- The names of the parameters of the updates of a call. -/
def updateKeys (updates : List PutUpdate) : List Bytes :=
  updates.enum.flatMap (fun iu => (updateParams iu.1 iu.2).keys)

/-- A domain handle: the name of the domain and the connection it sends its
requests through. -/
structure Domain where
  name : Bytes
  c : conn.Conn

/-- What a call of `PutAttributes` yields: its error and the requests it handed
to the connection, in order. -/
structure PutOutcome where
  err : Option Bytes
  reqs : List conn.Request

/-- Modelled from the spec: `Domain.PutAttributes` (the method is not among the
sources; `put_test.go` calls it). The call is validated; a call that fails
validation returns the error and hands nothing to the connection; a valid call
hands its request to the connection once and returns the connection's error. -/
def Domain.PutAttributes (d : Domain) (item : ItemName) (updates : List PutUpdate)
    (preconditions : List Precondition) : PutOutcome :=
  match validatePut item updates preconditions with
  | some e => ⟨some e, []⟩
  | none =>
    let req := putRequest d.name item updates preconditions
    ⟨(d.c.SendRequest req).2, [req]⟩

/-- The byte string `taco\x80\x81\x82` of the tests, not valid UTF-8. -/
def badTaco : Bytes := str "taco" ++ [0x80, 0x81, 0x82]

/-- A connection for the examples that accepts every request. -/
def okConn : conn.Conn := ⟨fun _ => (some (str "<ok/>"), none)⟩

/-- The domain of the examples. -/
def exampleDomain : Domain := ⟨str "D", okConn⟩

end sdb

/-! ## The layout of the timestamp -/

namespace time

/-- The layout `2006-01-02T15:04:05Z` filled in, field by field. -/
theorem formatChunks_iso8601 (year month day hour minute second : Int) :
    formatChunks year month day hour minute second conn.iso8601Format =
      appendInt year 4 ++ str "-" ++ appendInt month 2 ++ str "-" ++ appendInt day 2 ++
      str "T" ++ appendInt hour 2 ++ str ":" ++ appendInt minute 2 ++ str ":" ++
      appendInt second 2 ++ str "Z" := by
  have h : formatChunks year month day hour minute second conn.iso8601Format =
      appendInt year 4 ++ (str "-" ++ (appendInt month 2 ++ (str "-" ++ (appendInt day 2 ++
      (str "T" ++ (appendInt hour 2 ++ (str ":" ++ (appendInt minute 2 ++ (str ":" ++
      (appendInt second 2 ++ str "Z")))))))))) := rfl
  rw [h]
  simp only [List.append_assoc]

/-- The rendering of a time in the layout `2006-01-02T15:04:05Z`. -/
theorem Format_iso8601 (t : Time) :
    t.Format conn.iso8601Format =
      appendInt (civil ((t.sec + t.offset) / 86400)).1 4 ++ str "-" ++
      appendInt (civil ((t.sec + t.offset) / 86400)).2.1 2 ++ str "-" ++
      appendInt (civil ((t.sec + t.offset) / 86400)).2.2 2 ++ str "T" ++
      appendInt ((t.sec + t.offset) % 86400 / 3600) 2 ++ str ":" ++
      appendInt ((t.sec + t.offset) % 86400 % 3600 / 60) 2 ++ str ":" ++
      appendInt ((t.sec + t.offset) % 86400 % 60) 2 ++ str "Z" := by
  unfold Time.Format
  exact formatChunks_iso8601 _ _ _ _ _ _

end time

/-! ## Lemmas on the heap of maps -/

namespace conn

theorem Heap.read_append_last (h : Heap) (m : Request) : Heap.read (h ++ [m]) h.length = m := by
  simp [Heap.read, List.getD]

theorem Heap.read_append_old (h : Heap) (m : Request) (a : Nat) (ha : a < h.length) :
    Heap.read (h ++ [m]) a = Heap.read h a := by
  simp [Heap.read, List.getD, List.getElem?_append_left ha]

theorem Heap.write_append_last (h : Heap) (m r : Request) :
    Heap.write (h ++ [m]) h.length r = h ++ [r] := by
  simp [Heap.write]

theorem Heap.assign_append_last (h : Heap) (m : Request) (k v : Bytes) :
    Heap.assign (h ++ [m]) h.length k v = h ++ [m.assign k v] := by
  simp [Heap.assign, Heap.read_append_last, Heap.write_append_last]

theorem copyInto_append_last (es : List (Sigma fun _ : Bytes => Bytes)) (h : Heap)
    (m : Request) : copyInto (h ++ [m]) h.length es = h ++ [copied es m] := by
  induction es generalizing m with
  | nil => rfl
  | cons kv es ih =>
    simp only [copyInto, copied, List.foldl_cons, Heap.assign_append_last]
    exact ih _

theorem lookup_copied (es : List (Sigma fun _ : Bytes => Bytes)) (hnd : es.NodupKeys)
    (m : Request) (k : Bytes) :
    (copied es m).lookup k = match es.dlookup k with
      | some v => some v
      | none => m.lookup k := by
  induction es generalizing m with
  | nil => simp [copied]
  | cons kv es ih =>
    obtain ⟨a, b⟩ := kv
    rw [List.nodupKeys_cons] at hnd
    have h1 : copied (⟨a, b⟩ :: es) m = copied es (m.assign a b) := rfl
    rw [h1, ih hnd.2]
    by_cases hk : k = a
    · subst hk
      have hnone : es.dlookup k = none := List.dlookup_eq_none.mpr hnd.1
      simp [hnone, Request.assign]
    · rw [List.dlookup_cons_ne _ _ hk]
      cases es.dlookup k with
      | some v => rfl
      | none => simp [Request.assign, AList.lookup_insert_ne hk]

theorem lookup_copied_empty (r : Request) (k : Bytes) :
    (copied r.entries ∅).lookup k = r.lookup k := by
  rw [lookup_copied _ r.nodupKeys]
  change (match r.lookup k with | some v => some v | none => _) = _
  cases r.lookup k <;> simp

/-- The call, step by step, in terms of the contents of the fresh map. -/
theorem SendRequest_eq (c : conn) (h : Heap) (req : Fin h.length) :
    c.SendRequest h req =
      (let p := c.authParams (h.read req)
       let s := c.signer.SignRequest p
       match s.2 with
       | some e => ⟨h ++ [s.1], none, some (str "SignRequest: " ++ e), [p], []⟩
       | none =>
         let t := c.httpConn.SendRequest s.1
         match t.2 with
         | .error e => ⟨h ++ [t.1], none, some (str "SendRequest: " ++ e), [p], [s.1]⟩
         | .ok r =>
           if r.StatusCode ≠ 200 then
             ⟨h ++ [t.1], none, some (str "Error from server (" ++
               fmt.formatInt r.StatusCode ++ str "): " ++ r.Body.getD []), [p], [s.1]⟩
           else ⟨h ++ [t.1], r.Body, none, [p], [s.1]⟩) := by
  unfold conn.SendRequest
  simp only [Heap.alloc, Heap.read_append_old _ _ _ req.isLt, copyInto_append_last,
    Heap.assign_append_last, Heap.read_append_last, Heap.write_append_last]
  rfl

theorem signed_eq (c : conn) (h : Heap) (req : Fin h.length) :
    (c.SendRequest h req).signed = [c.authParams (h.read req)] := by
  rw [SendRequest_eq]
  dsimp only
  split
  · rfl
  · split
    · rfl
    · split <;> rfl

theorem handedToSigner_eq (c : conn) (h : Heap) (req : Fin h.length) :
    c.handedToSigner h req = c.authParams (h.read req) := by
  simp [conn.handedToSigner, signed_eq]

theorem reserved_ne :
    str "AWSAccessKeyId" ≠ str "Timestamp" ∧ str "AWSAccessKeyId" ≠ str "SignatureVersion" ∧
    str "AWSAccessKeyId" ≠ str "SignatureMethod" ∧ str "Timestamp" ≠ str "SignatureVersion" ∧
    str "Timestamp" ≠ str "SignatureMethod" ∧ str "SignatureVersion" ≠ str "SignatureMethod" := by
  decide

theorem lookup_authParams (c : conn) (orig : Request) :
    (c.authParams orig).lookup (str "AWSAccessKeyId") = some c.key.Id ∧
    (c.authParams orig).lookup (str "Timestamp") = some (c.clock.Now.UTC.Format iso8601Format) ∧
    (c.authParams orig).lookup (str "SignatureVersion") = some (str "2") ∧
    (c.authParams orig).lookup (str "SignatureMethod") = some (str "HmacSHA1") ∧
    ∀ k, k ∉ reservedKeys → (c.authParams orig).lookup k = orig.lookup k := by
  obtain ⟨h12, h13, h14, h23, h24, h34⟩ := reserved_ne
  refine ⟨?_, ?_, ?_, ?_, ?_⟩
  · simp only [conn.authParams, Request.assign]
    rw [AList.lookup_insert_ne h14, AList.lookup_insert_ne h13, AList.lookup_insert_ne h12,
      AList.lookup_insert]
  · simp only [conn.authParams, Request.assign]
    rw [AList.lookup_insert_ne h24, AList.lookup_insert_ne h23, AList.lookup_insert]
  · simp only [conn.authParams, Request.assign]
    rw [AList.lookup_insert_ne h34, AList.lookup_insert]
  · simp only [conn.authParams, Request.assign]
    rw [AList.lookup_insert]
  · intro k hk
    simp only [reservedKeys, List.mem_cons, List.mem_singleton, not_or, List.not_mem_nil,
      or_false] at hk
    obtain ⟨k1, k2, k3, k4⟩ := hk
    simp only [conn.authParams, Request.assign]
    rw [AList.lookup_insert_ne k4, AList.lookup_insert_ne k3, AList.lookup_insert_ne k2,
      AList.lookup_insert_ne k1]
    exact lookup_copied_empty orig k

end conn

/-! ## The connection: claims C1 to C6 -/

namespace conn

/-- C1. The parameter set handed to the signer holds the access key's Id under
`AWSAccessKeyId`, the clock's reading converted to UTC and formatted under
`Timestamp`, `2` under `SignatureVersion` and `HmacSHA1` under
`SignatureMethod` (whatever the caller had under these four names); every
other name has exactly the value it has in the caller's map, or none if it has
none there, so that the names of the set are the caller's and these four. -/
theorem sendRequest_sets_auth_params (c : conn) (h : Heap) (req : Fin h.length) :
    ∃ p, (c.SendRequest h req).signed = [p] ∧
      p.lookup (str "AWSAccessKeyId") = some c.key.Id ∧
      p.lookup (str "Timestamp") = some (c.clock.Now.UTC.Format iso8601Format) ∧
      p.lookup (str "SignatureVersion") = some (str "2") ∧
      p.lookup (str "SignatureMethod") = some (str "HmacSHA1") ∧
      (∀ k, k ∉ reservedKeys → p.lookup k = (h.read req).lookup k) ∧
      (∀ k, k ∈ p ↔ k ∈ reservedKeys ∨ k ∈ h.read req) := by
  refine ⟨c.authParams (h.read req), signed_eq c h req, ?_⟩
  obtain ⟨h1, h2, h3, h4, h5⟩ := lookup_authParams c (h.read req)
  refine ⟨h1, h2, h3, h4, h5, ?_⟩
  intro k
  by_cases hk : k ∈ reservedKeys
  · simp only [hk, true_or, iff_true]
    rw [← AList.lookup_isSome]
    simp only [reservedKeys, List.mem_cons, List.mem_singleton, List.not_mem_nil,
      or_false] at hk
    rcases hk with rfl | rfl | rfl | rfl
    · rw [h1]; rfl
    · rw [h2]; rfl
    · rw [h3]; rfl
    · rw [h4]; rfl
  · simp only [hk, false_or]
    rw [← AList.lookup_isSome, ← AList.lookup_isSome, h5 k hk]

/-- The heap after a call is the heap before it with one more map. -/
theorem heap_eq (c : conn) (h : Heap) (req : Fin h.length) :
    ∃ m, (c.SendRequest h req).heap = h ++ [m] := by
  rw [SendRequest_eq]
  dsimp only
  split
  · exact ⟨_, rfl⟩
  · split
    · exact ⟨_, rfl⟩
    · split <;> exact ⟨_, rfl⟩

/-- C2. A call leaves the caller's map as it was, whatever the signer and the
transport do with the map they are given and whatever the outcome: every map
that existed before the call has the contents it had, and the heap has grown
by the one map the call made for itself. -/
theorem sendRequest_keeps_caller_map (c : conn) (h : Heap) (req : Fin h.length) :
    (c.SendRequest h req).heap.read req = h.read req ∧
    (∀ a, a < h.length → (c.SendRequest h req).heap.read a = h.read a) ∧
    (c.SendRequest h req).heap.length = h.length + 1 := by
  obtain ⟨m, hm⟩ := heap_eq c h req
  rw [hm]
  exact ⟨Heap.read_append_old h m req req.isLt, fun a ha => Heap.read_append_old h m a ha,
    by simp⟩

/-- C3. When signing and sending succeed and the status code of the response
is not 200, the call returns no bytes and the error
`Error from server (<status code in decimal>): <body>`, a message that contains
the decimal status code and the body as it came. -/
theorem sendRequest_server_error (c : conn) (h : Heap) (req : Fin h.length)
    (r : HttpResponse)
    (hsign : (c.signer.SignRequest (c.handedToSigner h req)).2 = none)
    (hsend : (c.httpConn.SendRequest (c.signer.SignRequest (c.handedToSigner h req)).1).2
      = .ok r)
    (hstatus : r.StatusCode ≠ 200) :
    (c.SendRequest h req).resp = none ∧
    ∃ msg, (c.SendRequest h req).err = some msg ∧
      msg = str "Error from server (" ++ fmt.formatInt r.StatusCode ++ str "): " ++
        r.Body.getD [] ∧
      HasSubstr (fmt.formatInt r.StatusCode) msg ∧ HasSubstr (r.Body.getD []) msg := by
  rw [handedToSigner_eq] at hsign hsend
  rw [SendRequest_eq]
  simp only [hsign, hsend, hstatus, ne_eq, not_false_eq_true, if_true, true_and]
  refine ⟨_, rfl, rfl, ?_, ?_⟩
  · exact ⟨str "Error from server (", str "): " ++ r.Body.getD [], by simp⟩
  · exact ⟨str "Error from server (" ++ fmt.formatInt r.StatusCode ++ str "): ", [], by simp⟩

/-- C3 at the example request that the server refuses with status 403. -/
theorem sendRequest_server_error_witness :
    (exampleConn.signer.SignRequest (exampleConn.handedToSigner exampleHeap ⟨1, by decide⟩)).2
      = none ∧
    (exampleConn.SendRequest exampleHeap ⟨1, by decide⟩).resp = none ∧
    ∃ msg, (exampleConn.SendRequest exampleHeap ⟨1, by decide⟩).err = some msg ∧
      msg = str "Error from server (403): denied" ∧
      HasSubstr (str "403") msg ∧ HasSubstr (str "denied") msg :=
  ⟨by decide,
    sendRequest_server_error exampleConn exampleHeap ⟨1, by decide⟩ ⟨403, some (str "denied")⟩
      (by decide) (by decide) (by decide)⟩

/-- C4. The error of a call is nil exactly when the signer succeeds, the
transport succeeds and the status code is 200; the bytes returned are then the
body of the response as it came, and in every other case no bytes are
returned. -/
theorem sendRequest_ok_iff (c : conn) (h : Heap) (req : Fin h.length) :
    ((c.SendRequest h req).err = none ↔
      (c.signer.SignRequest (c.handedToSigner h req)).2 = none ∧
      ∃ r, (c.httpConn.SendRequest (c.signer.SignRequest (c.handedToSigner h req)).1).2
        = .ok r ∧ r.StatusCode = 200) ∧
    (∀ r, (c.SendRequest h req).err = none →
      (c.httpConn.SendRequest (c.signer.SignRequest (c.handedToSigner h req)).1).2 = .ok r →
      (c.SendRequest h req).resp = r.Body) ∧
    ((c.SendRequest h req).err ≠ none → (c.SendRequest h req).resp = none) := by
  rw [handedToSigner_eq, SendRequest_eq]
  dsimp only
  cases hs : (c.signer.SignRequest (c.authParams (h.read req))).2 with
  | some e => simp
  | none =>
    cases ht : (c.httpConn.SendRequest (c.signer.SignRequest (c.authParams (h.read req))).1).2 with
    | error e => simp
    | ok r =>
      by_cases h200 : r.StatusCode = 200
      · simp [h200]
      · simp [h200]

/-- C5. When the signer returns an error, the call returns the error
`SignRequest: ` followed by the signer's message and no bytes, and nothing is
handed to the transport. -/
theorem sendRequest_sign_error (c : conn) (h : Heap) (req : Fin h.length) (e : Bytes)
    (hsign : (c.signer.SignRequest (c.handedToSigner h req)).2 = some e) :
    (c.SendRequest h req).err = some (str "SignRequest: " ++ e) ∧
    (c.SendRequest h req).resp = none ∧
    (c.SendRequest h req).sent = [] := by
  rw [handedToSigner_eq] at hsign
  rw [SendRequest_eq]
  simp [hsign]

/-- C5 at the example request that the example signer refuses. -/
theorem sendRequest_sign_error_witness :
    (exampleConn.signer.SignRequest (exampleConn.handedToSigner exampleHeap ⟨2, by decide⟩)).2
      = some (str "no key") ∧
    (exampleConn.SendRequest exampleHeap ⟨2, by decide⟩).err
      = some (str "SignRequest: no key") ∧
    (exampleConn.SendRequest exampleHeap ⟨2, by decide⟩).resp = none ∧
    (exampleConn.SendRequest exampleHeap ⟨2, by decide⟩).sent = [] :=
  ⟨by decide,
    sendRequest_sign_error exampleConn exampleHeap ⟨2, by decide⟩ (str "no key") (by decide)⟩

/-- C6. When the signer succeeds and the transport returns an error, the call
returns no bytes and the error `SendRequest: ` followed by the transport's
message; the transport was invoked once, with the parameter set as the signer
left it. -/
theorem sendRequest_transport_error (c : conn) (h : Heap) (req : Fin h.length) (e : Bytes)
    (hsign : (c.signer.SignRequest (c.handedToSigner h req)).2 = none)
    (hsend : (c.httpConn.SendRequest (c.signer.SignRequest (c.handedToSigner h req)).1).2
      = .error e) :
    (c.SendRequest h req).resp = none ∧
    (c.SendRequest h req).err = some (str "SendRequest: " ++ e) ∧
    (c.SendRequest h req).sent = [(c.signer.SignRequest (c.handedToSigner h req)).1] := by
  rw [handedToSigner_eq] at hsign hsend ⊢
  rw [SendRequest_eq]
  simp [hsign, hsend]

/-- C6 at the example request that the example transport cannot send. -/
theorem sendRequest_transport_error_witness :
    (exampleConn.signer.SignRequest (exampleConn.handedToSigner exampleHeap ⟨3, by decide⟩)).2
      = none ∧
    (exampleConn.SendRequest exampleHeap ⟨3, by decide⟩).resp = none ∧
    (exampleConn.SendRequest exampleHeap ⟨3, by decide⟩).err
      = some (str "SendRequest: no route") ∧
    (exampleConn.SendRequest exampleHeap ⟨3, by decide⟩).sent.map
      (fun p => p.lookup (str "Signature")) = [some (str "c2ln")] :=
  ⟨by decide, by
    have key := sendRequest_transport_error exampleConn exampleHeap ⟨3, by decide⟩
      (str "no route") (by decide) (by decide)
    refine ⟨key.1, key.2.1, ?_⟩
    rw [key.2.2]
    decide⟩

end conn

/-! ## Lemmas on decimal rendering and parameter names -/

namespace fmt

theorem toNat_digit (n : Nat) : (UInt8.ofNat (48 + n % 10)).toNat = 48 + n % 10 := by
  have : n % 10 < 10 := Nat.mod_lt _ (by decide)
  simp [UInt8.toNat, UInt8.ofNat, Fin.ofNat]
  omega

theorem digitsValue_digitsCore (fuel n : Nat) (ds : Bytes) (h : n < fuel) :
    digitsValue 0 (digitsCore fuel n ds) = digitsValue n ds := by
  induction fuel generalizing n ds with
  | zero => omega
  | succ fuel ih =>
    unfold digitsCore
    simp only
    split
    · simp only [digitsValue, List.foldl_cons, toNat_digit]
      congr 1
      omega
    · rw [ih _ _ (by omega)]
      simp only [digitsValue, List.foldl_cons, toNat_digit]
      congr 1
      omega

theorem itoa_injective {i j : Nat} (h : itoa i = itoa j) : i = j := by
  have hi := digitsValue_digitsCore (i + 1) i [] (by omega)
  have hj := digitsValue_digitsCore (j + 1) j [] (by omega)
  unfold itoa at h
  rw [h, hj] at hi
  simpa [digitsValue] using hi.symm

theorem digitsCore_range (fuel n : Nat) (ds : Bytes) (b : UInt8)
    (hb : b ∈ digitsCore fuel n ds) : b ∈ ds ∨ (48 ≤ b.toNat ∧ b.toNat ≤ 57) := by
  induction fuel generalizing n ds with
  | zero => exact Or.inl hb
  | succ fuel ih =>
    have hd : 48 ≤ (UInt8.ofNat (48 + n % 10)).toNat ∧
        (UInt8.ofNat (48 + n % 10)).toNat ≤ 57 := by
      rw [toNat_digit]; omega
    unfold digitsCore at hb
    simp only at hb
    split at hb
    · rcases List.mem_cons.mp hb with rfl | hb
      · exact Or.inr hd
      · exact Or.inl hb
    · rcases ih _ _ hb with hb | hb
      · rcases List.mem_cons.mp hb with rfl | hb
        · exact Or.inr hd
        · exact Or.inl hb
      · exact Or.inr hb

theorem itoa_range (n : Nat) (b : UInt8) (hb : b ∈ itoa n) : 48 ≤ b.toNat ∧ b.toNat ≤ 57 := by
  rcases digitsCore_range _ _ _ _ hb with h | h
  · simp at h
  · exact h

end fmt

theorem append_cons_unique {c : UInt8} {xs ys a b : Bytes} (hx : c ∉ xs) (hy : c ∉ ys)
    (h : xs ++ c :: a = ys ++ c :: b) : xs = ys ∧ a = b := by
  induction xs generalizing ys with
  | nil =>
    cases ys with
    | nil => simpa using h
    | cons y ys =>
      simp only [List.nil_append, List.cons_append, List.cons.injEq] at h
      exact absurd (h.1 ▸ List.mem_cons_self _ _) hy
  | cons x xs ih =>
    cases ys with
    | nil =>
      simp only [List.nil_append, List.cons_append, List.cons.injEq] at h
      exact absurd (h.1 ▸ List.mem_cons_self _ _) hx
    | cons y ys =>
      simp only [List.cons_append, List.cons.injEq] at h
      obtain ⟨h1, h2⟩ := ih (fun hm => hx (List.mem_cons_of_mem _ hm))
        (fun hm => hy (List.mem_cons_of_mem _ hm)) h.2
      exact ⟨by rw [h.1, h1], h2⟩

theorem hasSubstr_append_left {n x : Bytes} (y : Bytes) (h : HasSubstr n x) :
    HasSubstr n (x ++ y) := by
  obtain ⟨a, b, rfl⟩ := h
  exact ⟨a, b ++ y, by simp⟩

theorem hasSubstr_append_right {n y : Bytes} (x : Bytes) (h : HasSubstr n y) :
    HasSubstr n (x ++ y) := by
  obtain ⟨a, b, rfl⟩ := h
  exact ⟨x ++ a, b, by simp⟩

theorem hasSubstr_refl (n : Bytes) : HasSubstr n n := ⟨[], [], by simp⟩

namespace sdb

theorem dot_not_mem_itoa (n : Nat) : (46 : UInt8) ∉ fmt.itoa n := by
  intro h
  have := fmt.itoa_range n 46 h
  revert this
  decide

theorem paramKey_inj {kind f g : String} {i j : Nat}
    (h : paramKey kind i f = paramKey kind j g) : i = j ∧ str f = str g := by
  unfold paramKey at h
  simp only [List.append_assoc] at h
  have h1 := List.append_cancel_left (List.append_cancel_left h)
  have h2 : fmt.itoa i ++ 46 :: str f = fmt.itoa j ++ 46 :: str g := h1
  obtain ⟨hd, hf⟩ := append_cons_unique (dot_not_mem_itoa i) (dot_not_mem_itoa j) h2
  exact ⟨fmt.itoa_injective hd, hf⟩

theorem paramKey_attribute_head (i : Nat) (f : String) :
    (paramKey "Attribute" i f).head? = some 65 := rfl

theorem paramKey_ne_domainName (i : Nat) (f : String) :
    paramKey "Attribute" i f ≠ str "DomainName" := by
  intro h
  have := paramKey_attribute_head i f
  rw [h] at this
  revert this
  decide

theorem paramKey_ne_itemName (i : Nat) (f : String) :
    paramKey "Attribute" i f ≠ str "ItemName" := by
  intro h
  have := paramKey_attribute_head i f
  rw [h] at this
  revert this
  decide

/-- The names of the parameters of one update. -/
theorem keys_updateParams (i : Nat) (u : PutUpdate) (k : Bytes)
    (hk : k ∈ (updateParams i u).keys) :
    k = paramKey "Attribute" (i + 1) "Name" ∨ k = paramKey "Attribute" (i + 1) "Value" ∨
      (k = paramKey "Attribute" (i + 1) "Replace" ∧ u.Replace = true) := by
  unfold updateParams at hk
  cases hr : u.Replace <;> simp [hr, List.keys] at hk <;> tauto

theorem nodup_keys_updateParams (i : Nat) (u : PutUpdate) : (updateParams i u).keys.Nodup := by
  have h1 : paramKey "Attribute" (i + 1) "Name" ≠ paramKey "Attribute" (i + 1) "Value" :=
    fun h => absurd (paramKey_inj h).2 (by decide)
  have h2 : paramKey "Attribute" (i + 1) "Name" ≠ paramKey "Attribute" (i + 1) "Replace" :=
    fun h => absurd (paramKey_inj h).2 (by decide)
  have h3 : paramKey "Attribute" (i + 1) "Value" ≠ paramKey "Attribute" (i + 1) "Replace" :=
    fun h => absurd (paramKey_inj h).2 (by decide)
  unfold updateParams
  cases hr : u.Replace <;> simp [List.keys, h1, h2, h3]

theorem disjoint_keys_updateParams {i j : Nat} (u v : PutUpdate) (hij : i ≠ j) :
    List.Disjoint (updateParams i u).keys (updateParams j v).keys := by
  intro k hk1 hk2
  have e1 := keys_updateParams i u k hk1
  have e2 := keys_updateParams j v k hk2
  have key : ∀ f g : String, k = paramKey "Attribute" (i + 1) f →
      k = paramKey "Attribute" (j + 1) g → False := by
    intro f g hf hg
    have := (paramKey_inj (hf.symm.trans hg)).1
    omega
  rcases e1 with e1 | e1 | ⟨e1, _⟩ <;> rcases e2 with e2 | e2 | ⟨e2, _⟩ <;>
    exact key _ _ e1 e2

theorem nodup_updateKeys (updates : List PutUpdate) : (updateKeys updates).Nodup := by
  unfold updateKeys
  rw [List.nodup_flatMap]
  refine ⟨fun x _ => nodup_keys_updateParams x.1 x.2, ?_⟩
  have h := List.nodup_enum_map_fst updates
  rw [List.Nodup, List.pairwise_map] at h
  exact h.imp (fun hab => disjoint_keys_updateParams _ _ hab)

theorem mem_updateKeys {updates : List PutUpdate} {k : Bytes} (hk : k ∈ updateKeys updates) :
    ∃ i u, updates[i]? = some u ∧
      (k = paramKey "Attribute" (i + 1) "Name" ∨ k = paramKey "Attribute" (i + 1) "Value" ∨
        (k = paramKey "Attribute" (i + 1) "Replace" ∧ u.Replace = true)) := by
  unfold updateKeys at hk
  rw [List.mem_flatMap] at hk
  obtain ⟨⟨i, u⟩, hmem, hk⟩ := hk
  exact ⟨i, u, List.mk_mem_enum_iff_getElem?.mp hmem, keys_updateParams i u k hk⟩

theorem keys_putParams (domain : Bytes) (item : ItemName) (updates : List PutUpdate) :
    (putParams domain item updates []).keys =
      str "DomainName" :: str "ItemName" :: updateKeys updates := by
  simp [putParams, List.keys, updateKeys, List.map_flatMap]

theorem nodupKeys_putParams (domain : Bytes) (item : ItemName) (updates : List PutUpdate) :
    (putParams domain item updates []).NodupKeys := by
  have hnot : ∀ s : Bytes, (∀ i f, paramKey "Attribute" i f ≠ s) → s ∉ updateKeys updates := by
    intro s hs hmem
    obtain ⟨i, u, _, h | h | ⟨h, _⟩⟩ := mem_updateKeys hmem <;> exact hs _ _ h.symm
  rw [List.NodupKeys, keys_putParams]
  refine List.nodup_cons.mpr ⟨?_, List.nodup_cons.mpr ⟨?_, nodup_updateKeys updates⟩⟩
  · intro h
    rcases List.mem_cons.mp h with h | h
    · revert h; decide
    · exact hnot _ paramKey_ne_domainName h
  · exact hnot _ paramKey_ne_itemName

theorem lookup_putRequest (domain : Bytes) (item : ItemName) (updates : List PutUpdate)
    (k : Bytes) :
    (putRequest domain item updates []).lookup k
      = (putParams domain item updates []).dlookup k := by
  unfold putRequest
  rw [conn.lookup_copied _ (nodupKeys_putParams domain item updates)]
  cases (putParams domain item updates []).dlookup k <;> rfl

theorem lookup_putRequest_of_mem (domain : Bytes) (item : ItemName) (updates : List PutUpdate)
    (k v : Bytes) (h : (⟨k, v⟩ : Sigma fun _ : Bytes => Bytes) ∈ putParams domain item updates []) :
    (putRequest domain item updates []).lookup k = some v := by
  rw [lookup_putRequest]
  exact (List.mem_dlookup_iff (nodupKeys_putParams domain item updates)).mpr h

theorem mem_putParams_of_update (domain : Bytes) (item : ItemName) (updates : List PutUpdate)
    (i : Nat) (u : PutUpdate) (hi : updates[i]? = some u) (e : Sigma fun _ : Bytes => Bytes)
    (he : e ∈ updateParams i u) : e ∈ putParams domain item updates [] := by
  unfold putParams
  simp only [List.enum_nil, List.flatMap_nil, List.append_nil, List.mem_append, List.mem_flatMap]
  exact Or.inr ⟨(i, u), List.mk_mem_enum_iff_getElem?.mpr hi, he⟩

theorem expected_needs_E (k : Bytes) (h : HasSubstr (str "Expected") k) : (69 : UInt8) ∈ k :=
  List.IsInfix.subset h (by decide)

theorem no_E_in_paramKey (i : Nat) (f : String) (hf : (69 : UInt8) ∉ str f) :
    (69 : UInt8) ∉ paramKey "Attribute" i f := by
  unfold paramKey
  simp only [List.mem_append, not_or]
  refine ⟨⟨⟨⟨by decide, by decide⟩, ?_⟩, by decide⟩, hf⟩
  intro h
  have := fmt.itoa_range i 69 h
  revert this
  decide

end sdb

/-! ## PutAttributes: claims C7 to C10 -/

namespace sdb

theorem validateUpdateCount_eq_none {n : Nat} (h : validateUpdateCount n = none) :
    1 ≤ n ∧ n ≤ 256 := by
  unfold validateUpdateCount at h
  split at h
  · simp at h
  · split at h
    · simp at h
    · omega

theorem joinErrors_eq_none {vs : List Bytes} (h : joinErrors vs = none) : vs = [] := by
  cases vs with
  | nil => rfl
  | cons v vs => simp [joinErrors] at h

theorem toList_eq_nil {o : Option Bytes} (h : o.toList = []) : o = none := by
  cases o with
  | none => rfl
  | some v => simp at h

theorem validatePut_eq_none {item : ItemName} {updates : List PutUpdate}
    {preconditions : List Precondition} (h : validatePut item updates preconditions = none) :
    validateItemName item = none ∧ validateUpdateCount updates.length = none ∧
      (∀ u ∈ updates, validateUpdate u = []) ∧
      (∀ p ∈ preconditions, validatePrecondition p = []) := by
  have hv := joinErrors_eq_none h
  simp only [putViolations, List.append_eq_nil, List.flatMap_eq_nil_iff] at hv
  exact ⟨toList_eq_nil hv.1.1.1, toList_eq_nil hv.1.1.2, hv.1.2, hv.2⟩

/-- C7. A valid `PutAttributes` call with updates `u_1..u_n` and no
precondition has between 1 and 256 updates and hands one request to the
connection, in which `ItemName` is the item name, `DomainName` the name of the
domain, `Attribute.i.Name` and `Attribute.i.Value` the name and the value of
`u_i` (an empty value as the empty string) and `Attribute.i.Replace` is `true`
when `u_i.Replace` is true and absent otherwise; the request has no other
parameter, and no parameter name contains `Expected`. -/
theorem putAttributes_basic_parameters (d : Domain) (item : ItemName)
    (updates : List PutUpdate) (hvalid : validatePut item updates [] = none) :
    1 ≤ updates.length ∧ updates.length ≤ 256 ∧
    ∃ req, (d.PutAttributes item updates []).reqs = [req] ∧
      req.lookup (str "ItemName") = some item ∧
      req.lookup (str "DomainName") = some d.name ∧
      (∀ i u, updates[i]? = some u →
        req.lookup (paramKey "Attribute" (i + 1) "Name") = some u.Name ∧
        req.lookup (paramKey "Attribute" (i + 1) "Value") = some u.Value ∧
        req.lookup (paramKey "Attribute" (i + 1) "Replace")
          = if u.Replace then some (str "true") else none) ∧
      (∀ k, k ∈ req → k = str "ItemName" ∨ k = str "DomainName" ∨
        ∃ i, i < updates.length ∧ (k = paramKey "Attribute" (i + 1) "Name" ∨
          k = paramKey "Attribute" (i + 1) "Value" ∨
          k = paramKey "Attribute" (i + 1) "Replace")) ∧
      (∀ k, k ∈ req → ¬ HasSubstr (str "Expected") k) := by
  have hcount := validateUpdateCount_eq_none (validatePut_eq_none hvalid).2.1
  have hkeys : ∀ k, k ∈ putRequest d.name item updates [] →
      k = str "ItemName" ∨ k = str "DomainName" ∨
        ∃ i u, updates[i]? = some u ∧ (k = paramKey "Attribute" (i + 1) "Name" ∨
          k = paramKey "Attribute" (i + 1) "Value" ∨
          (k = paramKey "Attribute" (i + 1) "Replace" ∧ u.Replace = true)) := by
    intro k hk
    rw [← AList.lookup_isSome, lookup_putRequest] at hk
    have hmem : k ∈ (putParams d.name item updates []).keys := by
      by_contra hno
      rw [List.dlookup_eq_none.mpr hno] at hk
      exact absurd hk (by decide)
    rw [keys_putParams] at hmem
    rcases List.mem_cons.mp hmem with h | h
    · exact Or.inr (Or.inl h)
    · rcases List.mem_cons.mp h with h | h
      · exact Or.inl h
      · exact Or.inr (Or.inr (mem_updateKeys h))
  refine ⟨hcount.1, hcount.2, putRequest d.name item updates [], ?_, ?_, ?_, ?_, ?_, ?_⟩
  · simp [Domain.PutAttributes, hvalid]
  · exact lookup_putRequest_of_mem _ _ _ _ _ (by simp [putParams])
  · exact lookup_putRequest_of_mem _ _ _ _ _ (by simp [putParams])
  · intro i u hi
    refine ⟨?_, ?_, ?_⟩
    · exact lookup_putRequest_of_mem _ _ _ _ _
        (mem_putParams_of_update _ _ _ i u hi _ (by simp [updateParams]))
    · exact lookup_putRequest_of_mem _ _ _ _ _
        (mem_putParams_of_update _ _ _ i u hi _ (by simp [updateParams]))
    · cases hr : u.Replace with
      | true =>
        exact lookup_putRequest_of_mem _ _ _ _ _
          (mem_putParams_of_update _ _ _ i u hi _ (by simp [updateParams, hr]))
      | false =>
        rw [lookup_putRequest, if_neg Bool.false_ne_true, List.dlookup_eq_none, keys_putParams]
        intro hmem
        rcases List.mem_cons.mp hmem with h | h
        · exact paramKey_ne_domainName _ _ h
        · rcases List.mem_cons.mp h with h | h
          · exact paramKey_ne_itemName _ _ h
          · obtain ⟨j, v, hj, hform⟩ := mem_updateKeys h
            rcases hform with e | e | ⟨e, hv⟩
            · exact absurd (paramKey_inj e).2 (by decide)
            · exact absurd (paramKey_inj e).2 (by decide)
            · have hij : i = j := by have := (paramKey_inj e).1; omega
              subst hij
              rw [hi] at hj
              cases hj
              rw [hr] at hv
              exact absurd hv (by decide)
  · intro k hk
    rcases hkeys k hk with h | h | ⟨i, u, hi, h⟩
    · exact Or.inl h
    · exact Or.inr (Or.inl h)
    · refine Or.inr (Or.inr ⟨i, ?_, ?_⟩)
      · exact (List.getElem?_eq_some_iff.mp hi).1
      · rcases h with h | h | ⟨h, _⟩
        · exact Or.inl h
        · exact Or.inr (Or.inl h)
        · exact Or.inr (Or.inr h)
  · intro k hk hsub
    have hE := expected_needs_E k hsub
    rcases hkeys k hk with h | h | ⟨i, u, _, h | h | ⟨h, _⟩⟩
    · rw [h] at hE; revert hE; decide
    · rw [h] at hE; revert hE; decide
    · rw [h] at hE; exact no_E_in_paramKey _ _ (by decide) hE
    · rw [h] at hE; exact no_E_in_paramKey _ _ (by decide) hE
    · rw [h] at hE; exact no_E_in_paramKey _ _ (by decide) hE

/-- C7 at the call of the test `BasicParameters`: the nine parameters of the
request, and no tenth. -/
theorem putAttributes_basic_parameters_witness :
    validatePut (str "some_item") [⟨str "foo", [], false⟩, ⟨str "bar", str "taco", true⟩,
      ⟨str "baz", str "burrito", false⟩] [] = none ∧
    ∃ req, (exampleDomain.PutAttributes (str "some_item") [⟨str "foo", [], false⟩,
        ⟨str "bar", str "taco", true⟩, ⟨str "baz", str "burrito", false⟩] []).reqs = [req] ∧
      req.lookup (str "ItemName") = some (str "some_item") ∧
      req.lookup (str "DomainName") = some (str "D") ∧
      req.lookup (str "Attribute.1.Name") = some (str "foo") ∧
      req.lookup (str "Attribute.1.Value") = some [] ∧
      req.lookup (str "Attribute.1.Replace") = none ∧
      req.lookup (str "Attribute.2.Name") = some (str "bar") ∧
      req.lookup (str "Attribute.2.Value") = some (str "taco") ∧
      req.lookup (str "Attribute.2.Replace") = some (str "true") ∧
      req.lookup (str "Attribute.3.Name") = some (str "baz") ∧
      req.lookup (str "Attribute.3.Value") = some (str "burrito") ∧
      req.lookup (str "Attribute.3.Replace") = none ∧
      req.entries.length = 9 := by
  refine ⟨by decide, ?_⟩
  obtain ⟨_, _, req, hreq, hitem, hdom, hupd, _, _⟩ :=
    putAttributes_basic_parameters exampleDomain (str "some_item")
      [⟨str "foo", [], false⟩, ⟨str "bar", str "taco", true⟩, ⟨str "baz", str "burrito", false⟩]
      (by decide)
  obtain ⟨a1, a2, a3⟩ := hupd 0 _ rfl
  obtain ⟨b1, b2, b3⟩ := hupd 1 _ rfl
  obtain ⟨c1, c2, c3⟩ := hupd 2 _ rfl
  refine ⟨req, hreq, hitem, hdom, a1, a2, a3, b1, b2, b3, c1, c2, c3, ?_⟩
  have hlen : (exampleDomain.PutAttributes (str "some_item") [⟨str "foo", [], false⟩,
      ⟨str "bar", str "taco", true⟩, ⟨str "baz", str "burrito", false⟩] []).reqs.map
      (fun r => r.entries.length) = [9] := by decide
  rw [hreq] at hlen
  exact (List.cons.inj hlen).1

end sdb

namespace sdb

theorem hasSubstr_trans {a b c : Bytes} (h1 : HasSubstr a b) (h2 : HasSubstr b c) :
    HasSubstr a c :=
  List.IsInfix.trans h1 h2

theorem hasSubstr_foldl_join (xs : List Bytes) (acc v : Bytes)
    (h : HasSubstr v acc ∨ v ∈ xs) :
    HasSubstr v (xs.foldl (fun acc x => acc ++ str "; " ++ x) acc) := by
  induction xs generalizing acc with
  | nil =>
    rcases h with h | h
    · exact h
    · simp at h
  | cons x xs ih =>
    rw [List.foldl_cons]
    apply ih
    rcases h with h | h
    · exact Or.inl (hasSubstr_append_left _ (hasSubstr_append_left _ h))
    · rcases List.mem_cons.mp h with rfl | h
      · exact Or.inl (hasSubstr_append_right _ (hasSubstr_refl _))
      · exact Or.inr h

/-- The error of a list of violations contains each of them. -/
theorem hasSubstr_joinErrors {vs : List Bytes} {v : Bytes} (h : v ∈ vs) :
    ∃ e, joinErrors vs = some e ∧ HasSubstr v e := by
  cases vs with
  | nil => simp at h
  | cons x xs =>
    refine ⟨_, rfl, hasSubstr_foldl_join xs x v ?_⟩
    rcases List.mem_cons.mp h with rfl | h
    · exact Or.inl (hasSubstr_refl _)
    · exact Or.inr h

/-- A call with a violation fails with an error that contains the message of
the violation, and hands nothing to the connection. -/
theorem putAttributes_of_violation (d : Domain) {item : ItemName} {updates : List PutUpdate}
    {preconditions : List Precondition} {v : Bytes}
    (h : v ∈ putViolations item updates preconditions) :
    ∃ e, (d.PutAttributes item updates preconditions).err = some e ∧ HasSubstr v e ∧
      (d.PutAttributes item updates preconditions).reqs = [] := by
  obtain ⟨e, he, hs⟩ := hasSubstr_joinErrors h
  have hv : validatePut item updates preconditions = some e := he
  exact ⟨e, by simp [Domain.PutAttributes, hv], hs, by simp [Domain.PutAttributes, hv]⟩

theorem mem_putViolations_item {item : ItemName} {v : Bytes} (updates : List PutUpdate)
    (preconditions : List Precondition) (h : validateItemName item = some v) :
    v ∈ putViolations item updates preconditions := by
  simp [putViolations, h]

theorem mem_putViolations_count {updates : List PutUpdate} {v : Bytes} (item : ItemName)
    (preconditions : List Precondition) (h : validateUpdateCount updates.length = some v) :
    v ∈ putViolations item updates preconditions := by
  simp [putViolations, h]

theorem mem_putViolations_update {updates : List PutUpdate} {u : PutUpdate} {v : Bytes}
    (item : ItemName) (preconditions : List Precondition) (hu : u ∈ updates)
    (h : v ∈ validateUpdate u) : v ∈ putViolations item updates preconditions := by
  simp only [putViolations, List.mem_append, List.mem_flatMap]
  exact Or.inl (Or.inr ⟨u, hu, h⟩)

theorem mem_putViolations_precondition {preconditions : List Precondition} {p : Precondition}
    {v : Bytes} (item : ItemName) (updates : List PutUpdate) (hp : p ∈ preconditions)
    (h : v ∈ validatePrecondition p) : v ∈ putViolations item updates preconditions := by
  simp only [putViolations, List.mem_append, List.mem_flatMap]
  exact Or.inr ⟨p, hp, h⟩

/-- C8. A `PutAttributes` call whose list of updates is empty or has more than
256 entries fails with an error that contains `number`, `updates` and `0`,
respectively `256`, and nothing is handed to the connection. A list of 1 to 256
updates is not a violation: the error of such a call, if any, reports the
violations of its item name, of its updates and of its preconditions only. -/
theorem putAttributes_update_count (d : Domain) (item : ItemName) (updates : List PutUpdate)
    (preconditions : List Precondition) :
    ((updates.length = 0 ∨ 256 < updates.length) →
      ∃ e, (d.PutAttributes item updates preconditions).err = some e ∧
        HasSubstr (str "number") e ∧ HasSubstr (str "updates") e ∧
        (updates.length = 0 → HasSubstr (str "0") e) ∧
        (256 < updates.length → HasSubstr (str "256") e) ∧
        (d.PutAttributes item updates preconditions).reqs = []) ∧
    (1 ≤ updates.length ∧ updates.length ≤ 256 →
      validateUpdateCount updates.length = none ∧
      validatePut item updates preconditions =
        joinErrors ((validateItemName item).toList ++ updates.flatMap validateUpdate ++
          preconditions.flatMap validatePrecondition)) := by
  constructor
  · intro hlen
    by_cases h0 : updates.length = 0
    · have hc : validateUpdateCount updates.length = some (str "Invalid number of updates: 0") := by
        simp [validateUpdateCount, h0]
      obtain ⟨e, he, hs, hr⟩ :=
        putAttributes_of_violation d (mem_putViolations_count item preconditions hc)
      exact ⟨e, he, hasSubstr_trans (by decide) hs, hasSubstr_trans (by decide) hs,
        fun _ => hasSubstr_trans (by decide) hs, fun h => by omega, hr⟩
    · have h256 : 256 < updates.length := by omega
      have hc : validateUpdateCount updates.length
          = some (str "Invalid number of updates: more than 256") := by
        simp [validateUpdateCount, h0, h256]
      obtain ⟨e, he, hs, hr⟩ :=
        putAttributes_of_violation d (mem_putViolations_count item preconditions hc)
      exact ⟨e, he, hasSubstr_trans (by decide) hs, hasSubstr_trans (by decide) hs,
        fun h => absurd h h0, fun _ => hasSubstr_trans (by decide) hs, hr⟩
  · intro hlen
    have hc : validateUpdateCount updates.length = none := by
      unfold validateUpdateCount
      rw [if_neg (by omega), if_neg (by omega)]
    exact ⟨hc, by simp [validatePut, putViolations, hc]⟩

/-- C8 at the calls of the tests `ZeroUpdates` and `TooManyUpdates`, at a call
with no update and an empty item name, and at a call with one update. -/
theorem putAttributes_update_count_witness :
    (exampleDomain.PutAttributes (str "foo") [] []).err
      = some (str "Invalid number of updates: 0") ∧
    (exampleDomain.PutAttributes (str "foo") [] []).reqs = [] ∧
    (∃ e, (exampleDomain.PutAttributes (str "foo") (List.replicate 257 ⟨[], [], false⟩) []).err
      = some e ∧ HasSubstr (str "number") e ∧ HasSubstr (str "updates") e ∧
      HasSubstr (str "256") e) ∧
    (exampleDomain.PutAttributes (str "") [] []).err
      = some (str "Invalid item name (empty): ; Invalid number of updates: 0") ∧
    validatePut (str "foo") [⟨str "bar", str "baz", false⟩] [] = none := by
  have h0 := (putAttributes_update_count exampleDomain (str "foo") [] []).1 (Or.inl rfl)
  have h257 := (putAttributes_update_count exampleDomain (str "foo")
    (List.replicate 257 ⟨[], [], false⟩) []).1 (Or.inr (by rw [List.length_replicate]; omega))
  have h1 := (putAttributes_update_count exampleDomain (str "foo")
    [⟨str "bar", str "baz", false⟩] []).2 (by decide)
  obtain ⟨e0, he0, -, -, -, -, hr0⟩ := h0
  obtain ⟨e, he, hn, hu, -, h256, -⟩ := h257
  refine ⟨by decide, hr0, ⟨e, he, hn, hu, h256 (by rw [List.length_replicate]; omega)⟩,
    by decide, ?_⟩
  rw [h1.2]
  decide

theorem operandViolation_of_bad (p : Precondition)
    (hp : (p.Exists = none ∧ p.Value = none) ∨ (p.Exists ≠ none ∧ p.Value ≠ none)) :
    ∃ v, operandViolation p = some v ∧ HasSubstr (str "Invalid") v ∧
      HasSubstr (str "precondition") v ∧ HasSubstr p.Name v := by
  unfold operandViolation
  rcases hp with ⟨h1, h2⟩ | ⟨h1, h2⟩
  · rw [h1, h2]
    exact ⟨_, rfl, hasSubstr_append_left _ (by decide), hasSubstr_append_left _ (by decide),
      hasSubstr_append_right _ (hasSubstr_refl _)⟩
  · obtain ⟨b, hb⟩ := Option.ne_none_iff_exists'.mp h1
    obtain ⟨w, hw⟩ := Option.ne_none_iff_exists'.mp h2
    rw [hb, hw]
    exact ⟨_, rfl, hasSubstr_append_left _ (by decide), hasSubstr_append_left _ (by decide),
      hasSubstr_append_right _ (hasSubstr_refl _)⟩

/-- C9. A `PutAttributes` call whose precondition list has an entry that sets
neither `Exists` nor `Value`, or sets both, fails with an error that contains
`Invalid`, `precondition` and the attribute name of that entry, wherever the
entry sits in the list and whatever else the call holds, and nothing is handed
to the connection. An entry that sets exactly one of the two has no violation
of its operands, and none at all when its name and the value it sets are
valid. -/
theorem putAttributes_precondition_operands (d : Domain) (item : ItemName)
    (updates : List PutUpdate) (preconditions : List Precondition) (p : Precondition)
    (hmem : p ∈ preconditions)
    (hp : (p.Exists = none ∧ p.Value = none) ∨ (p.Exists ≠ none ∧ p.Value ≠ none)) :
    (∃ e, (d.PutAttributes item updates preconditions).err = some e ∧
      HasSubstr (str "Invalid") e ∧ HasSubstr (str "precondition") e ∧ HasSubstr p.Name e ∧
      (d.PutAttributes item updates preconditions).reqs = []) ∧
    (∀ q : Precondition,
      ((∃ b, q.Exists = some b) ∧ q.Value = none) ∨ (q.Exists = none ∧ ∃ v, q.Value = some v) →
      operandViolation q = none ∧
      (validateName q.Name = none → (∀ v, q.Value = some v → validateValue v = none) →
        validatePrecondition q = [])) := by
  constructor
  · obtain ⟨v, hv, s1, s2, s3⟩ := operandViolation_of_bad p hp
    have hin : v ∈ validatePrecondition p := by
      simp [validatePrecondition, hv]
    obtain ⟨e, he, hs, hr⟩ :=
      putAttributes_of_violation d (mem_putViolations_precondition item updates hmem hin)
    exact ⟨e, he, hasSubstr_trans s1 hs, hasSubstr_trans s2 hs, hasSubstr_trans s3 hs, hr⟩
  · intro q hq
    rcases hq with ⟨⟨b, hb⟩, hv⟩ | ⟨hb, v, hv⟩
    · refine ⟨by simp [operandViolation, hb, hv], fun hn _ => ?_⟩
      simp [validatePrecondition, operandViolation, hn, hb, hv]
    · refine ⟨by simp [operandViolation, hb, hv], fun hn hval => ?_⟩
      simp [validatePrecondition, operandViolation, hn, hb, hv, hval v hv]

/-- C9 at the calls of the tests `OnePreconditionMissingOperand` and
`OnePreconditionHasTwoOperands`, whose faulty entry is the second of three, and
at a call with two entries without operand and an empty item name, whose error
names both entries. -/
theorem putAttributes_precondition_operands_witness :
    (exampleDomain.PutAttributes (str "foo") [⟨str "bar", str "baz", false⟩]
      [⟨str "foo", some false, none⟩, ⟨str "bar", none, none⟩,
        ⟨str "baz", some false, none⟩]).err
      = some (str "Invalid precondition (missing operand): bar") ∧
    (∃ e, (exampleDomain.PutAttributes (str "foo") [⟨str "bar", str "baz", false⟩]
      [⟨str "foo", some false, none⟩, ⟨str "bar", some false, some []⟩,
        ⟨str "baz", some false, none⟩]).err = some e ∧
      HasSubstr (str "Invalid") e ∧ HasSubstr (str "precondition") e ∧
      HasSubstr (str "bar") e) ∧
    (∃ e, (exampleDomain.PutAttributes (str "") [⟨str "bar", str "baz", false⟩]
      [⟨str "foo", none, none⟩, ⟨str "qux", none, none⟩]).err = some e ∧
      HasSubstr (str "precondition") e ∧ HasSubstr (str "qux") e) ∧
    validatePrecondition ⟨str "baz", some false, none⟩ = [] := by
  obtain ⟨⟨e, he, s1, s2, s3, -⟩, hok⟩ := putAttributes_precondition_operands exampleDomain
    (str "foo") [⟨str "bar", str "baz", false⟩]
    [⟨str "foo", some false, none⟩, ⟨str "bar", some false, some []⟩,
      ⟨str "baz", some false, none⟩] ⟨str "bar", some false, some []⟩ (by decide)
    (Or.inr ⟨by decide, by decide⟩)
  obtain ⟨⟨e2, he2, -, t2, t3, -⟩, -⟩ := putAttributes_precondition_operands exampleDomain
    (str "") [⟨str "bar", str "baz", false⟩]
    [⟨str "foo", none, none⟩, ⟨str "qux", none, none⟩] ⟨str "qux", none, none⟩ (by decide)
    (Or.inl ⟨rfl, rfl⟩)
  exact ⟨by decide, ⟨e, he, s1, s2, s3⟩, ⟨e2, he2, t2, t3⟩,
    (hok ⟨str "baz", some false, none⟩ (Or.inl ⟨⟨false, rfl⟩, rfl⟩)).2 (by decide)
      (fun v hv => by cases hv)⟩

theorem decodeRunes_nil : decodeRunes [] = some [] := rfl

theorem validateName_invalid {s : Bytes} (h : validUtf8 s = false) :
    validateName s = some (str "invalid encoding") := by
  have hd : decodeRunes s = none := by
    unfold validUtf8 at h
    cases hdec : decodeRunes s with
    | none => rfl
    | some r => simp [hdec] at h
  have hne : s ≠ [] := by
    intro hs
    rw [hs, decodeRunes_nil] at hd
    cases hd
  simp [validateName, hne, validateValue, hd]

theorem validateValue_invalid {s : Bytes} (h : validUtf8 s = false) :
    validateValue s = some (str "invalid encoding") := by
  unfold validUtf8 at h
  cases hdec : decodeRunes s with
  | none => simp [validateValue, hdec]
  | some r => simp [hdec] at h

theorem validateItemName_invalid {item : ItemName} (h : validUtf8 item = false) :
    ∃ v, validateItemName item = some v ∧ HasSubstr (str "Invalid") v ∧
      HasSubstr (str "item name") v ∧ HasSubstr item v := by
  refine ⟨str "Invalid item name (" ++ str "invalid encoding" ++ str "): " ++ item, ?_, ?_, ?_, ?_⟩
  · simp [validateItemName, validateName_invalid h]
  · exact hasSubstr_append_left _ (by decide)
  · exact hasSubstr_append_left _ (by decide)
  · exact hasSubstr_append_right _ (hasSubstr_refl _)

theorem validateUpdate_invalid_name {u : PutUpdate} (h : validUtf8 u.Name = false) :
    ∃ v, v ∈ validateUpdate u ∧ HasSubstr (str "Invalid") v ∧
      HasSubstr (str "attribute") v ∧ HasSubstr (str "name") v ∧ HasSubstr u.Name v := by
  refine ⟨str "Invalid attribute name (" ++ str "invalid encoding" ++ str ") in update " ++
    u.Name ++ str "=" ++ u.Value, ?_, ?_, ?_, ?_, ?_⟩
  · simp [validateUpdate, validateName_invalid h]
  · exact hasSubstr_append_left _ (hasSubstr_append_left _ (hasSubstr_append_left _ (by decide)))
  · exact hasSubstr_append_left _ (hasSubstr_append_left _ (hasSubstr_append_left _ (by decide)))
  · exact hasSubstr_append_left _ (hasSubstr_append_left _ (hasSubstr_append_left _ (by decide)))
  · exact hasSubstr_append_left _ (hasSubstr_append_left _
      (hasSubstr_append_right _ (hasSubstr_refl _)))

theorem validateUpdate_invalid_value {u : PutUpdate} (h : validUtf8 u.Value = false) :
    ∃ v, v ∈ validateUpdate u ∧ HasSubstr (str "Invalid") v ∧
      HasSubstr (str "attribute") v ∧ HasSubstr (str "value") v ∧ HasSubstr u.Value v := by
  refine ⟨str "Invalid attribute value (" ++ str "invalid encoding" ++ str ") in update " ++
    u.Name ++ str "=" ++ u.Value, ?_, ?_, ?_, ?_, ?_⟩
  · simp [validateUpdate, validateValue_invalid h]
  · exact hasSubstr_append_left _ (hasSubstr_append_left _ (hasSubstr_append_left _ (by decide)))
  · exact hasSubstr_append_left _ (hasSubstr_append_left _ (hasSubstr_append_left _ (by decide)))
  · exact hasSubstr_append_left _ (hasSubstr_append_left _ (hasSubstr_append_left _ (by decide)))
  · exact hasSubstr_append_right _ (hasSubstr_refl _)

/-- C10. A `PutAttributes` call whose item name is not valid UTF-8 fails with an
error that contains `Invalid`, `item name` and the item name as given; a call
in which the name of some update is not valid UTF-8 fails with an error that
contains `Invalid`, `attribute`, `name` and that name as given; a call in which
the value of some update is not valid UTF-8 fails with an error that contains
`Invalid`, `attribute`, `value` and that value as given. This holds for every
call, whatever the position of the update in the list and whatever else the
call holds, and in each case nothing is handed to the connection. -/
theorem putAttributes_invalid_utf8 (d : Domain) (item : ItemName) (updates : List PutUpdate)
    (preconditions : List Precondition) :
    (validUtf8 item = false →
      ∃ e, (d.PutAttributes item updates preconditions).err = some e ∧
        HasSubstr (str "Invalid") e ∧ HasSubstr (str "item name") e ∧ HasSubstr item e ∧
        (d.PutAttributes item updates preconditions).reqs = []) ∧
    (∀ u ∈ updates, validUtf8 u.Name = false →
      ∃ e, (d.PutAttributes item updates preconditions).err = some e ∧
        HasSubstr (str "Invalid") e ∧ HasSubstr (str "attribute") e ∧
        HasSubstr (str "name") e ∧ HasSubstr u.Name e ∧
        (d.PutAttributes item updates preconditions).reqs = []) ∧
    (∀ u ∈ updates, validUtf8 u.Value = false →
      ∃ e, (d.PutAttributes item updates preconditions).err = some e ∧
        HasSubstr (str "Invalid") e ∧ HasSubstr (str "attribute") e ∧
        HasSubstr (str "value") e ∧ HasSubstr u.Value e ∧
        (d.PutAttributes item updates preconditions).reqs = []) := by
  refine ⟨?_, ?_, ?_⟩
  · intro h
    obtain ⟨v, hv, s1, s2, s3⟩ := validateItemName_invalid h
    obtain ⟨e, he, hs, hr⟩ :=
      putAttributes_of_violation d (mem_putViolations_item updates preconditions hv)
    exact ⟨e, he, hasSubstr_trans s1 hs, hasSubstr_trans s2 hs, hasSubstr_trans s3 hs, hr⟩
  · intro u hu h
    obtain ⟨v, hv, s1, s2, s3, s4⟩ := validateUpdate_invalid_name h
    obtain ⟨e, he, hs, hr⟩ :=
      putAttributes_of_violation d (mem_putViolations_update item preconditions hu hv)
    exact ⟨e, he, hasSubstr_trans s1 hs, hasSubstr_trans s2 hs, hasSubstr_trans s3 hs,
      hasSubstr_trans s4 hs, hr⟩
  · intro u hu h
    obtain ⟨v, hv, s1, s2, s3, s4⟩ := validateUpdate_invalid_value h
    obtain ⟨e, he, hs, hr⟩ :=
      putAttributes_of_violation d (mem_putViolations_update item preconditions hu hv)
    exact ⟨e, he, hasSubstr_trans s1 hs, hasSubstr_trans s2 hs, hasSubstr_trans s3 hs,
      hasSubstr_trans s4 hs, hr⟩

/-- C10 at the calls of the tests `InvalidItemName` (here also with no update
at all), `OneAttributeNameInvalid` and `OneAttributeValueInvalid`, whose faulty
string is `taco` followed by the bytes 80, 81, 82 (hexadecimal), and at a call
with two ill-encoded names, whose error echoes the second as well. -/
theorem putAttributes_invalid_utf8_witness :
    validUtf8 badTaco = false ∧
    (∃ e, (exampleDomain.PutAttributes badTaco [] []).err = some e ∧
      HasSubstr (str "item name") e ∧ HasSubstr badTaco e) ∧
    (∃ e, (exampleDomain.PutAttributes (str "foo") [⟨str "foo", [], false⟩,
      ⟨badTaco, [], false⟩, ⟨str "bar", [], false⟩] []).err = some e ∧
      HasSubstr (str "name") e ∧ HasSubstr badTaco e) ∧
    (∃ e, (exampleDomain.PutAttributes (str "foo") [⟨str "foo", [], false⟩,
      ⟨str "bar", badTaco, false⟩, ⟨str "baz", [], false⟩] []).err = some e ∧
      HasSubstr (str "value") e ∧ HasSubstr badTaco e) ∧
    (∃ e, (exampleDomain.PutAttributes (str "foo") [⟨badTaco, [], false⟩,
      ⟨str "burrito" ++ [0xFF], [], false⟩] []).err = some e ∧
      HasSubstr (str "burrito" ++ [0xFF]) e) := by
  obtain ⟨e1, h1, -, s1, t1, -⟩ := (putAttributes_invalid_utf8 exampleDomain badTaco []
    []).1 (by decide)
  obtain ⟨e2, h2, -, -, s2, t2, -⟩ := (putAttributes_invalid_utf8 exampleDomain (str "foo")
    [⟨str "foo", [], false⟩, ⟨badTaco, [], false⟩, ⟨str "bar", [], false⟩] []).2.1
    ⟨badTaco, [], false⟩ (by decide) (by decide)
  obtain ⟨e3, h3, -, -, s3, t3, -⟩ := (putAttributes_invalid_utf8 exampleDomain (str "foo")
    [⟨str "foo", [], false⟩, ⟨str "bar", badTaco, false⟩, ⟨str "baz", [], false⟩] []).2.2
    ⟨str "bar", badTaco, false⟩ (by decide) (by decide)
  obtain ⟨e4, h4, -, -, -, t4, -⟩ := (putAttributes_invalid_utf8 exampleDomain (str "foo")
    [⟨badTaco, [], false⟩, ⟨str "burrito" ++ [0xFF], [], false⟩] []).2.1
    ⟨str "burrito" ++ [0xFF], [], false⟩ (by decide) (by decide)
  exact ⟨by decide, ⟨e1, h1, s1, t1⟩, ⟨e2, h2, s2, t2⟩, ⟨e3, h3, s3, t3⟩, ⟨e4, h4, t4⟩⟩

end sdb

/-! ## Lemmas on the rendering of dates and numbers -/

namespace fmt

theorem digitsCore_eq (fuel : Nat) : ∀ n, n < fuel → ∀ ds,
    digitsCore fuel n ds = itoa n ++ ds := by
  induction fuel using Nat.strong_induction_on with
  | _ fuel ih =>
    intro n hn ds
    cases fuel with
    | zero => omega
    | succ fuel =>
      unfold itoa
      by_cases h0 : n / 10 = 0
      · simp [digitsCore, h0]
      · have hlt : n / 10 < n := Nat.div_lt_self (by omega) (by decide)
        have h1 : digitsCore (fuel + 1) n ds
            = digitsCore fuel (n / 10) (UInt8.ofNat (48 + n % 10) :: ds) := by
          simp [digitsCore, h0]
        have h2 : digitsCore (n + 1) n []
            = digitsCore n (n / 10) [UInt8.ofNat (48 + n % 10)] := by
          simp [digitsCore, h0]
        rw [h1, h2]
        by_cases hfn : n = fuel
        · subst hfn
          rw [ih n (by omega) _ hlt, ih n (by omega) _ hlt]
          simp
        · rw [ih fuel (by omega) _ (by omega), ih n (by omega) _ hlt]
          simp

theorem itoa_lt_ten {n : Nat} (h : n < 10) : itoa n = [time.digit n] := by
  have h0 : n / 10 = 0 := by omega
  simp [itoa, digitsCore, h0, time.digit]

theorem itoa_ge_ten {n : Nat} (h : 10 ≤ n) : itoa n = itoa (n / 10) ++ [time.digit n] := by
  have h0 : n / 10 ≠ 0 := by omega
  have h2 : itoa n = digitsCore n (n / 10) [UInt8.ofNat (48 + n % 10)] := by
    simp [itoa, digitsCore, h0]
  rw [h2, digitsCore_eq n (n / 10) (Nat.div_lt_self (by omega) (by decide))]
  rfl

end fmt

namespace time

theorem digit_zero : digit 0 = 48 := rfl

theorem digit_of_div_eq_zero {n k : Nat} (h : n / k = 0) : digit (n / k) = 48 := by
  rw [h]; rfl

theorem appendInt_two (x : Int) (h0 : 0 ≤ x) (h1 : x ≤ 99) :
    appendInt x 2 = twoDigits x.toNat := by
  obtain ⟨n, rfl⟩ := Int.eq_ofNat_of_zero_le h0
  have hn : n ≤ 99 := by omega
  simp only [appendInt, Int.natAbs_ofNat, Int.toNat_ofNat, twoDigits]
  rw [if_neg (by omega)]
  by_cases h10 : n < 10
  · rw [fmt.itoa_lt_ten h10, digit_of_div_eq_zero (by omega)]
    rfl
  · rw [fmt.itoa_ge_ten (by omega), fmt.itoa_lt_ten (by omega : n / 10 < 10)]
    rfl

theorem appendInt_four (x : Int) (h0 : 0 ≤ x) (h1 : x ≤ 9999) :
    appendInt x 4 = fourDigits x.toNat := by
  obtain ⟨n, rfl⟩ := Int.eq_ofNat_of_zero_le h0
  have hn : n ≤ 9999 := by omega
  simp only [appendInt, Int.natAbs_ofNat, Int.toNat_ofNat, fourDigits]
  rw [if_neg (by omega)]
  by_cases h10 : n < 10
  · rw [fmt.itoa_lt_ten h10, digit_of_div_eq_zero (by omega : n / 1000 = 0),
      digit_of_div_eq_zero (by omega : n / 100 = 0), digit_of_div_eq_zero (by omega : n / 10 = 0)]
    rfl
  · by_cases h100 : n < 100
    · rw [fmt.itoa_ge_ten (by omega), fmt.itoa_lt_ten (by omega : n / 10 < 10),
        digit_of_div_eq_zero (by omega : n / 1000 = 0),
        digit_of_div_eq_zero (by omega : n / 100 = 0)]
      rfl
    · by_cases h1000 : n < 1000
      · rw [fmt.itoa_ge_ten (by omega), fmt.itoa_ge_ten (by omega : 10 ≤ n / 10),
          fmt.itoa_lt_ten (by omega : n / 10 / 10 < 10),
          digit_of_div_eq_zero (by omega : n / 1000 = 0), Nat.div_div_eq_div_mul]
        rfl
      · rw [fmt.itoa_ge_ten (by omega), fmt.itoa_ge_ten (by omega : 10 ≤ n / 10),
          fmt.itoa_ge_ten (by omega : 10 ≤ n / 10 / 10),
          fmt.itoa_lt_ten (by omega : n / 10 / 10 / 10 < 10)]
        simp only [Nat.div_div_eq_div_mul]
        rfl

set_option maxHeartbeats 4000000 in
/-- The day of the year computed from the day of the 400-year era lies in a
year of at most 366 days. -/
theorem doy_bounds (doe : Int) (h0 : 0 ≤ doe) (h1 : doe ≤ 146096) :
    0 ≤ doe - (365 * ((doe - doe / 1460 + doe / 36524 - doe / 146096) / 365)
      + (doe - doe / 1460 + doe / 36524 - doe / 146096) / 365 / 4
      - (doe - doe / 1460 + doe / 36524 - doe / 146096) / 365 / 100) ∧
    doe - (365 * ((doe - doe / 1460 + doe / 36524 - doe / 146096) / 365)
      + (doe - doe / 1460 + doe / 36524 - doe / 146096) / 365 / 4
      - (doe - doe / 1460 + doe / 36524 - doe / 146096) / 365 / 100) ≤ 365 := by
  by_cases hlast : doe = 146096
  · subst hlast
    decide
  · have hg : doe / 146096 = 0 := by omega
    rw [hg]
    generalize hf : doe / 36524 = f
    have hf0 : 0 ≤ f := by omega
    have hf1 : f ≤ 3 := by omega
    generalize he : doe / 1460 = e
    have he0 : 25 * f ≤ e := by omega
    have he1 : e ≤ 25 * f + 25 := by omega
    interval_cases f <;> interval_cases e <;> omega

/-- Month and day from the day of the year. -/
theorem month_day_bounds (doy : Int) (h0 : 0 ≤ doy) (h1 : doy ≤ 365) :
    1 ≤ (if (5 * doy + 2) / 153 < 10 then (5 * doy + 2) / 153 + 3 else (5 * doy + 2) / 153 - 9) ∧
    (if (5 * doy + 2) / 153 < 10 then (5 * doy + 2) / 153 + 3 else (5 * doy + 2) / 153 - 9) ≤ 12 ∧
    1 ≤ doy - (153 * ((5 * doy + 2) / 153) + 2) / 5 + 1 ∧
    doy - (153 * ((5 * doy + 2) / 153) + 2) / 5 + 1 ≤ 31 := by
  split <;> omega

theorem civil_month_day (days : Int) :
    1 ≤ (civil days).2.1 ∧ (civil days).2.1 ≤ 12 ∧ 1 ≤ (civil days).2.2 ∧ (civil days).2.2 ≤ 31 := by
  have hdoe : 0 ≤ days + 719468 - (days + 719468) / 146097 * 146097 ∧
      days + 719468 - (days + 719468) / 146097 * 146097 ≤ 146096 := by omega
  obtain ⟨h0, h1⟩ := doy_bounds _ hdoe.1 hdoe.2
  exact month_day_bounds _ h0 h1

theorem civil_year (days : Int) (hlo : -719528 ≤ days) (hhi : days ≤ 2932896) :
    0 ≤ (civil days).1 ∧ (civil days).1 ≤ 9999 := by
  have hdoe : 0 ≤ days + 719468 - (days + 719468) / 146097 * 146097 ∧
      days + 719468 - (days + 719468) / 146097 * 146097 ≤ 146096 := by omega
  obtain ⟨h0, h1⟩ := doy_bounds _ hdoe.1 hdoe.2
  simp only [civil]
  generalize hera : (days + 719468) / 146097 = era at *
  generalize hdoe' : days + 719468 - era * 146097 = doe at *
  generalize hyoe : (doe - doe / 1460 + doe / 36524 - doe / 146096) / 365 = yoe at *
  generalize hdoy : doe - (365 * yoe + yoe / 4 - yoe / 100) = doy at *
  generalize hmp : (5 * doy + 2) / 153 = mp at *
  have hyoe0 : 0 ≤ yoe := by omega
  have hyoe1 : yoe ≤ 399 := by omega
  have hera0 : -1 ≤ era := by omega
  have hera1 : era ≤ 24 := by omega
  by_cases hfirst : era = -1
  · have hd1 : 146037 ≤ doe := by omega
    have he : doe / 1460 = 100 := by omega
    have hy : yoe = 399 := by omega
    split <;> split <;> omega
  · by_cases hlast : era = 24
    · have hd1 : doe ≤ 146036 := by omega
      by_cases hy : yoe = 399
      · split <;> split <;> omega
      · split <;> split <;> omega
    · split <;> split <;> omega

end time

/-! ## The timestamp: claim C11 -/

namespace conn

/-- The `Timestamp` that a connection sets, for every clock reading. -/
theorem lookup_timestamp (c : conn) (h : Heap) (req : Fin h.length) :
    ∃ p, (c.SendRequest h req).signed = [p] ∧
      p.lookup (str "Timestamp") = some (c.clock.Now.UTC.Format iso8601Format) :=
  ⟨_, signed_eq c h req, (lookup_authParams c (h.read req)).2.1⟩

/-- C11, amended. For every reading of the clock that lies in the years 0 to
9999 of UTC, whatever its time zone and its fraction of a second, the
`Timestamp` handed to the signer is the rendering of the whole second of the
instant in UTC: the four digits of the year, `-`, the two digits of the month,
`-`, the two digits of the day, `T`, the two digits of the hour, `:`, of the
minute, `:`, of the second, and `Z`, 20 characters in all; year, month and day
are the civil date of the day of the instant, and hour, minute and second
count the whole seconds since the start of that day. -/
theorem sendRequest_timestamp_layout (c : conn) (h : Heap) (req : Fin h.length)
    (hlo : -62167219200 ≤ c.clock.Now.sec) (hhi : c.clock.Now.sec < 253402300800) :
    ∃ p, (c.SendRequest h req).signed = [p] ∧
    ∃ year month day hour minute second : Nat,
      ((year : Int), (month : Int), (day : Int)) = time.civil (c.clock.Now.sec / 86400) ∧
      ((hour * 3600 + minute * 60 + second : Nat) : Int) = c.clock.Now.sec % 86400 ∧
      year ≤ 9999 ∧ 1 ≤ month ∧ month ≤ 12 ∧ 1 ≤ day ∧ day ≤ 31 ∧
      hour ≤ 23 ∧ minute ≤ 59 ∧ second ≤ 59 ∧
      p.lookup (str "Timestamp") = some (time.fourDigits year ++ str "-" ++
        time.twoDigits month ++ str "-" ++ time.twoDigits day ++ str "T" ++
        time.twoDigits hour ++ str ":" ++ time.twoDigits minute ++ str ":" ++
        time.twoDigits second ++ str "Z") ∧
      (time.fourDigits year ++ str "-" ++
        time.twoDigits month ++ str "-" ++ time.twoDigits day ++ str "T" ++
        time.twoDigits hour ++ str ":" ++ time.twoDigits minute ++ str ":" ++
        time.twoDigits second ++ str "Z").length = 20 := by
  obtain ⟨p, hp, hts⟩ := lookup_timestamp c h req
  refine ⟨p, hp, ?_⟩
  have hdays : -719528 ≤ c.clock.Now.sec / 86400 ∧ c.clock.Now.sec / 86400 ≤ 2932896 := by
    omega
  obtain ⟨hy0, hy1⟩ := time.civil_year _ hdays.1 hdays.2
  obtain ⟨hm0, hm1, hd0, hd1⟩ := time.civil_month_day (c.clock.Now.sec / 86400)
  have hfmt := time.Format_iso8601 c.clock.Now.UTC
  have hsec : c.clock.Now.UTC.sec + c.clock.Now.UTC.offset = c.clock.Now.sec := by
    simp [time.Time.UTC]
  rw [hsec] at hfmt
  generalize hs : c.clock.Now.sec % 86400 = s at hfmt
  have hs0 : 0 ≤ s := by omega
  have hs1 : s ≤ 86399 := by omega
  rw [time.appendInt_four _ hy0 hy1, time.appendInt_two _ (by omega) (by omega : _ ≤ (99 : Int)),
    time.appendInt_two (time.civil (c.clock.Now.sec / 86400)).2.2 (by omega) (by omega),
    time.appendInt_two (s / 3600) (by omega) (by omega),
    time.appendInt_two (s % 3600 / 60) (by omega) (by omega),
    time.appendInt_two (s % 60) (by omega) (by omega)] at hfmt
  refine ⟨_, _, _, _, _, _, ?_, ?_, ?_, ?_, ?_, ?_, ?_, ?_, ?_, ?_, hts.trans (congrArg some hfmt),
    rfl⟩
  · ext
    · exact Int.toNat_of_nonneg hy0
    · exact Int.toNat_of_nonneg (by omega)
    · exact Int.toNat_of_nonneg (by omega)
  all_goals omega

end conn

namespace conn

/-- C11, amended, at the example connection, whose clock reads 16:13:58 and
seven nanoseconds on 31 October 2012 in UTC, in a zone one hour east. -/
theorem sendRequest_timestamp_layout_witness :
    (-62167219200 ≤ exampleConn.clock.Now.sec ∧ exampleConn.clock.Now.sec < 253402300800) ∧
    (∃ p, (exampleConn.SendRequest exampleHeap ⟨0, by decide⟩).signed = [p] ∧
      ∃ ts, p.lookup (str "Timestamp") = some ts ∧ ts.length = 20) ∧
    (exampleConn.SendRequest exampleHeap ⟨0, by decide⟩).signed.map
      (fun p => p.lookup (str "Timestamp")) = [some (str "2012-10-31T16:13:58Z")] := by
  obtain ⟨p, hp, _, _, _, _, _, _, _, _, _, _, _, _, _, _, _, _, hts, hlen⟩ :=
    sendRequest_timestamp_layout exampleConn exampleHeap ⟨0, by decide⟩ (by decide) (by decide)
  exact ⟨⟨by decide, by decide⟩, ⟨p, hp, _, hts, hlen⟩, by decide⟩

/-- C11 as stated fails: when the clock reads the first second of the year
10000 the `Timestamp` has a five-digit year and 21 characters. -/
theorem sendRequest_timestamp_layout_counterexample :
    (lateConn.SendRequest exampleHeap ⟨0, by decide⟩).signed.map
      (fun p => p.lookup (str "Timestamp")) = [some (str "10000-01-01T00:00:00Z")] ∧
    (str "10000-01-01T00:00:00Z").length = 21 := by
  exact ⟨by decide, by decide⟩

end conn
